/-
Verification of the session/statistics layer and worker loops of the
YOLO-Detector-Pro repository, as a shallow embedding in Lean 4.

The embedding follows `src/core/detection_manager.py`,
`src/core/yolo_worker.py`, `src/core/comparison_worker.py` and
`src/utils/helper.py`.  Wall-clock timestamps (`datetime.now()`,
`time.time()`) are passed in explicitly as parameters; confidences and
durations are modelled as rationals.
-/
import Mathlib

namespace YoloDetectorPro

/-- One detection dict produced by `_extract_detections`:
`{'bbox': ..., 'confidence': ..., 'class_id': ..., 'class_name': ...}`. -/
structure Detection where
  bbox : ℚ × ℚ × ℚ × ℚ
  confidence : ℚ
  class_id : ℕ
  class_name : String
  deriving DecidableEq, Repr

/-- One entry of `current_session['detections']` as appended by
`DetectionManager.add_detection`: `{'frame_id', 'timestamp', 'detections'}`. -/
structure FrameEntry where
  frame_id : ℕ
  timestamp : ℕ
  detections : List Detection
  deriving DecidableEq, Repr

/-- The `stats` dict of a session, as initialised by
`DetectionManager.start_session`.  Python's `set` is a `Finset`;
Python's `dict` of counts (read with `.get(name, 0)`) is a total
function defaulting to 0. -/
structure Stats where
  total_frames : ℕ
  total_detections : ℕ
  unique_classes : Finset String
  avg_confidence : ℚ
  class_counts : String → ℕ

/-- A detection session dict, as built by `DetectionManager.start_session`
(`end_time` is absent, i.e. `none`, until `end_session` stamps it). -/
structure Session where
  session_id : String
  mode : String
  model : String
  start_time : ℕ
  end_time : Option ℕ
  detections : List FrameEntry
  stats : Stats

/-- The `DetectionManager` object: `detection_history` and
`current_session` (`None` encoded as `none`). -/
structure DetectionManager where
  detection_history : List Session
  current_session : Option Session

/-- `DetectionManager.__init__`. -/
def DetectionManager.init : DetectionManager :=
  { detection_history := [], current_session := none }

/-- The fresh session dict built by `start_session(mode, model_name)` at
wall-clock instant `now`. -/
def freshSession (mode model : String) (now : ℕ) : Session :=
  { session_id := toString now
    mode := mode
    model := model
    start_time := now
    end_time := none
    detections := []
    stats :=
      { total_frames := 0
        total_detections := 0
        unique_classes := ∅
        avg_confidence := 0
        class_counts := fun _ => 0 } }

/-- `DetectionManager.start_session(mode, model_name)`: unconditionally
overwrites `current_session` with a fresh session dict; `detection_history`
is untouched. -/
def start_session (m : DetectionManager) (mode model : String) (now : ℕ) :
    DetectionManager :=
  { m with current_session := some (freshSession mode model now) }

/-- The incremental stats update performed by `add_detection`'s
`for det in detections:` loop together with the two `+=` lines. -/
def updateStats (stats : Stats) (dets : List Detection) : Stats :=
  { total_frames := stats.total_frames + 1
    total_detections := stats.total_detections + dets.length
    unique_classes :=
      dets.foldl (fun acc d => insert d.class_name acc) stats.unique_classes
    avg_confidence := stats.avg_confidence
    class_counts :=
      dets.foldl
        (fun cc d => Function.update cc d.class_name (cc d.class_name + 1))
        stats.class_counts }

/-- `DetectionManager.add_detection(frame_id, detections)`: returns early if
no session is open; otherwise appends a `(frame_id, timestamp, detections)`
entry and updates the stats incrementally. -/
def add_detection (m : DetectionManager) (frame_id : ℕ)
    (dets : List Detection) (now : ℕ) : DetectionManager :=
  match m.current_session with
  | none => m
  | some s =>
      { m with
        current_session := some
          { s with
            detections :=
              s.detections ++ [⟨frame_id, now, dets⟩]
            stats := updateStats s.stats dets } }

/-- Sum of all detection confidences across all recorded frames of a
session (the `total_conf` accumulator of `end_session`). -/
def totalConf (s : Session) : ℚ :=
  (s.detections.map (fun fe => (fe.detections.map (·.confidence)).sum)).sum

/-- Total number of recorded detections of a session (the `total_count`
accumulator of `end_session`). -/
def totalCount (s : Session) : ℕ :=
  (s.detections.map (fun fe => fe.detections.length)).sum

/-- The closed session produced by `end_session` at instant `now`: stamps
`end_time` and, when `total_count > 0`, overwrites `avg_confidence` with
`total_conf / total_count` (otherwise the stats are left as they are). -/
def finalizeSession (s : Session) (now : ℕ) : Session :=
  { s with
    end_time := some now
    stats :=
      if 0 < totalCount s then
        { s.stats with avg_confidence := totalConf s / (totalCount s : ℚ) }
      else s.stats }

/-- `DetectionManager.end_session()`: returns early if no session is open;
otherwise stamps and finalizes the current session, appends it to
`detection_history` and clears `current_session`. -/
def end_session (m : DetectionManager) (now : ℕ) : DetectionManager :=
  match m.current_session with
  | none => m
  | some s =>
      { detection_history := m.detection_history ++ [finalizeSession s now]
        current_session := none }

/-- `DetectionManager.get_session_stats()`. -/
def get_session_stats (m : DetectionManager) : Option Stats :=
  m.current_session.map (·.stats)

/-- `DetectionManager.clear_history()`: discards the history and the
current session. -/
def clear_history (_ : DetectionManager) : DetectionManager :=
  { detection_history := [], current_session := none }

/-- One call on a `DetectionManager`; wall-clock instants are carried as
data. -/
inductive Op where
  | startSession (mode model : String) (now : ℕ)
  | addDetection (frame_id : ℕ) (dets : List Detection) (now : ℕ)
  | endSession (now : ℕ)
  | clearHistory
  deriving DecidableEq, Repr

/-- Apply one call. -/
def applyOp (m : DetectionManager) : Op → DetectionManager
  | .startSession mode model now => start_session m mode model now
  | .addDetection fid dets now => add_detection m fid dets now
  | .endSession now => end_session m now
  | .clearHistory => clear_history m

/-- The manager state after a sequence of calls on a fresh manager. -/
def runOps (ops : List Op) : DetectionManager :=
  ops.foldl applyOp DetectionManager.init

/-- All class names occurring in the recorded frames, in order. -/
def frameClassNames (fes : List FrameEntry) : List String :=
  (fes.map (fun fe => fe.detections.map (·.class_name))).flatten

/-- All recorded confidences of a session, in order. -/
def allConfidences (s : Session) : List ℚ :=
  (s.detections.map (fun fe => fe.detections.map (·.confidence))).flatten

/-- Consistency of the four incrementally maintained statistics of a
session with its recorded frames, in the words of the specification:
`total_frames` counts frame entries, `total_detections` sums detection-list
lengths, `unique_classes` is the set of occurring class names, and
`class_counts` counts each class name's occurrences. -/
def coreConsistent (s : Session) : Prop :=
  s.stats.total_frames = s.detections.length ∧
  s.stats.total_detections =
    (s.detections.map (fun fe => fe.detections.length)).sum ∧
  s.stats.unique_classes = (frameClassNames s.detections).toFinset ∧
  ∀ c, s.stats.class_counts c = (frameClassNames s.detections).count c

/-- The mean of all recorded detection confidences of a session
(0 when there are none), as the claims describe it. -/
def meanConfidence (s : Session) : ℚ :=
  if 0 < (allConfidences s).length then
    (allConfidences s).sum / ((allConfidences s).length : ℚ)
  else 0

/-- The full consistency property asserted by the specification for the
open session: the four core statistics plus `avg_confidence` equal to the
mean of the recorded confidences. -/
def claimConsistent (s : Session) : Prop :=
  coreConsistent s ∧ s.stats.avg_confidence = meanConfidence s

/-- The specification's invariant lifted to the optional open session. -/
def claimConsistentOpt (o : Option Session) : Prop :=
  ∀ s, o = some s → claimConsistent s

/-- The state invariant maintained by every operation: the open session's
core stats are consistent with its frames, its `avg_confidence` is still
the initial 0, its `end_time` is unset, and every history entry has its
`end_time` set. -/
def Invariant (m : DetectionManager) : Prop :=
  (∀ s, m.current_session = some s →
    coreConsistent s ∧ s.stats.avg_confidence = 0 ∧ s.end_time = none) ∧
  (∀ s ∈ m.detection_history, s.end_time.isSome)

/-- The error the specification's claim expects `start_session` to raise
when a session is already open. -/
inductive SessionError where
  | sessionAlreadyOpen
  deriving DecidableEq, Repr

/-- Modelled from the spec (claim side only): `start_session` as claim C2
describes it, failing with `SessionAlreadyOpenError` when a session is
already open in the owning store.  `DetectionManager.start_session` in
`src/core/detection_manager.py` has no such error path; this definition
exists only to be compared against `start_session` above. -/
def start_session_claimed (m : DetectionManager) (mode model : String)
    (now : ℕ) : Except SessionError DetectionManager :=
  match m.current_session with
  | some _ => .error .sessionAlreadyOpen
  | none => .ok (start_session m mode model now)

/-- A video frame, identified by its position in the source stream. -/
abbrev Frame := ℕ

/-- The `while self.running:` loop of `YOLOWorker._process_video`, reduced
to its published frame results.  `running i` is the value of the stop flag
observed at the `i`-th loop-top check — the only place the flag is read,
so it is observed exactly once per frame boundary and never mid-inference.
Each frame that passes the check is fully processed and one complete
`frame_processed` notification is appended. -/
def videoEmits (running : ℕ → Bool) (infer : Frame → List Detection) :
    ℕ → List Frame → List (Frame × List Detection)
  | _, [] => []
  | i, f :: rest =>
      if running i then (f, infer f) :: videoEmits running infer (i + 1) rest
      else []

/-- Observable outcome of one `_process_video` run: the published frame
results and the releases done in the `finally:` block (`cap.release()`
always; `output_writer.release()` whenever the writer was created, i.e.
whenever at least one frame was processed). -/
structure VideoRun where
  emitted : List (Frame × List Detection)
  sourceReleased : Bool
  writerReleased : Bool
  deriving Repr

/-- `YOLOWorker._process_video` as a function of the source frames, the
engine, and the per-boundary stop-flag observations. -/
def process_video (running : ℕ → Bool) (infer : Frame → List Detection)
    (frames : List Frame) : VideoRun :=
  let emitted := videoEmits running infer 0 frames
  { emitted := emitted
    sourceReleased := true
    writerReleased := !emitted.isEmpty }

/-- The FPS bookkeeping of `ComparisonWorker._process_video`
(`fps_counter`, `sum_time_a`, `sum_time_b`): after each frame the counter
and the two per-model inference-time sums (milliseconds) are updated; once
the counter reaches 5 the averages are formed,
`(1000/avg_a, 1000/avg_b)` is published and the accumulators reset. -/
def compFPS (c : ℕ) (sa sb : ℚ) : List (ℚ × ℚ) → List (ℚ × ℚ)
  | [] => []
  | (ta, tb) :: rest =>
      let c' := c + 1
      let sa' := sa + ta
      let sb' := sb + tb
      if 5 ≤ c' then
        let avg_a := sa' / (c' : ℚ)
        let avg_b := sb' / (c' : ℚ)
        let fps_a := if 0 < avg_a then 1000 / avg_a else 0
        let fps_b := if 0 < avg_b then 1000 / avg_b else 0
        (fps_a, fps_b) :: compFPS 0 0 0 rest
      else compFPS c' sa' sb' rest

/-- The sequence of `fps_updated` pairs published by the comparison worker
for a run whose per-frame inference-time pairs are `times`. -/
def comparisonFpsEmissions (times : List (ℚ × ℚ)) : List (ℚ × ℚ) :=
  compFPS 0 0 0 times

/-- The FPS bookkeeping of `YOLOWorker._process_video` (and
`_process_camera`): `fps_counter` counts frames and `elapsed` accumulates
the wall-clock time since the last reset (`time.time() - start_time`);
once the counter reaches 10 the worker publishes `fps_counter / elapsed`
and resets both.  Each list element is one loop iteration's wall-clock
duration in seconds (frame read + inference + drawing + file write +
emit + optional sleep). -/
def yoloFPS (c : ℕ) (elapsed : ℚ) : List ℚ → List ℚ
  | [] => []
  | w :: rest =>
      let c' := c + 1
      let elapsed' := elapsed + w
      if 10 ≤ c' then ((c' : ℚ) / elapsed') :: yoloFPS 0 0 rest
      else yoloFPS c' elapsed' rest

/-- The sequence of `fps_updated` values published by the single-engine
worker for a run whose per-iteration wall-clock durations are `wall`. -/
def videoFpsEmissions (wall : List ℚ) : List ℚ := yoloFPS 0 0 wall

/-- `supported_formats` of `utils.helper.get_image_files`. -/
def supported_formats : List String :=
  [".jpg", ".jpeg", ".png", ".bmp", ".tiff", ".webp"]

/-- Python `str.lower` on one character (ASCII range, which covers the
extension comparisons the code performs). -/
def charLower (c : Char) : Char :=
  if 'A' ≤ c ∧ c ≤ 'Z' then Char.ofNat (c.toNat + 32) else c

/-- Python `str.lower`, on the string's code points. -/
def pyLower (s : String) : String := ⟨s.data.map charLower⟩

/-- Python `str.endswith` on code-point lists. -/
def listEndsWith (l pat : List Char) : Bool :=
  if pat.length ≤ l.length then (l.drop (l.length - pat.length)) == pat
  else false

/-- Python `str.endswith`. -/
def pyEndsWith (s pat : String) : Bool := listEndsWith s.data pat.data

/-- The per-file test of `get_image_files`:
`any(file.lower().endswith(fmt) for fmt in supported_formats)`. -/
def isImageFile (file : String) : Bool :=
  supported_formats.any (fun fmt => pyEndsWith (pyLower file) fmt)

/-- `os.path.join(root, file)` for the paths collected by `os.walk`. -/
def joinPath (root file : String) : String := root ++ "/" ++ file

/-- Python's `<=` on strings: lexicographic comparison of the code-point
sequences. -/
def charListLe : List Char → List Char → Bool
  | [], _ => true
  | _ :: _, [] => false
  | a :: as, b :: bs =>
      if a.toNat < b.toNat then true
      else if b.toNat < a.toNat then false
      else charListLe as bs

/-- Python's `<=` on strings, lifted to `String`. -/
def pyStrLe (a b : String) : Bool := charListLe a.data b.data

/-- `pyStrLe` as a decidable relation, for sorting. -/
def pathLe (a b : String) : Prop := pyStrLe a b = true

instance : DecidableRel pathLe :=
  fun a b => instDecidableEqBool (pyStrLe a b) true

/-- `utils.helper.get_image_files`: the walk's `(root, file)` pairs are
filtered by extension, joined into full paths, and returned `sorted()`
(ascending lexicographic order on code points). -/
def get_image_files (entries : List (String × String)) : List String :=
  ((entries.filter (fun e => isImageFile e.2)).map
      (fun e => joinPath e.1 e.2)).insertionSort pathLe

/-- One notification published by the folder-processing loop. -/
inductive FolderEvent where
  | progress (cur total : ℕ)
  | item (path : String) (dets : List Detection)
  | statsUpdate
  | errorOccurred (msg : String)
  deriving DecidableEq, Repr

/-- The `for i, filepath in enumerate(image_files):` loop of
`YOLOWorker._process_folder` (the `ComparisonWorker._process_folder` loop
has the same shape): `progress_updated(i+1, total)` is published for every
file before decoding; a file whose `cv2.imread` returns `None` is skipped
with `continue` — no per-item result, no stats update, and no error
notification for it. -/
def folderLoop (decode : String → Option Frame)
    (infer : Frame → List Detection) (total : ℕ) :
    ℕ → List String → List FolderEvent
  | _, [] => []
  | i, f :: rest =>
      FolderEvent.progress (i + 1) total ::
        (match decode f with
         | none => folderLoop decode infer total (i + 1) rest
         | some fr =>
             FolderEvent.item f (infer fr) :: FolderEvent.statsUpdate ::
               folderLoop decode infer total (i + 1) rest)

/-- `YOLOWorker._process_folder` on a non-empty file list (an empty list
makes the worker publish `"No image files found in folder"` and return). -/
def process_folder (decode : String → Option Frame)
    (infer : Frame → List Detection) (files : List String) :
    List FolderEvent :=
  if files.isEmpty then
    [FolderEvent.errorOccurred "No image files found in folder"]
  else folderLoop decode infer files.length 0 files

/-- Selector for progress notifications. -/
def isProgressEv : FolderEvent → Bool
  | .progress _ _ => true
  | _ => false

/-- The path of a per-item result notification, when the event is one. -/
def itemPath : FolderEvent → Option String
  | .item p _ => some p
  | _ => none

/-- Selector for error notifications. -/
def isErrorEv : FolderEvent → Bool
  | .errorOccurred _ => true
  | _ => false

/-- Selector for statistics-update notifications (`_update_stats`). -/
def isStatsEv : FolderEvent → Bool
  | .statsUpdate => true
  | _ => false

/-- A concrete call sequence opening a session and recording one detection
of confidence 1/2. -/
def C1exOps : List Op :=
  [Op.startSession "image" "m1" 0,
   Op.addDetection 0 [⟨(0, 0, 0, 0), 1/2, 0, "cat"⟩] 1]

/-- The open session produced by `C1exOps`, written out. -/
def C1sess : Session :=
  { session_id := toString (0 : ℕ)
    mode := "image"
    model := "m1"
    start_time := 0
    end_time := none
    detections := [⟨0, 1, [⟨(0, 0, 0, 0), 1/2, 0, "cat"⟩]⟩]
    stats :=
      { total_frames := 1
        total_detections := 1
        unique_classes := insert "cat" ∅
        avg_confidence := 0
        class_counts := Function.update (fun _ => 0) "cat" 1 } }

/-- A concrete call sequence recording detections with confidences
0.9, 0.8 over one frame and 0.7 over another. -/
def C3exOps : List Op :=
  [Op.startSession "video" "m1" 0,
   Op.addDetection 0
     [⟨(0, 0, 0, 0), 9/10, 0, "cat"⟩, ⟨(0, 0, 0, 0), 8/10, 1, "dog"⟩] 1,
   Op.addDetection 1 [⟨(0, 0, 0, 0), 7/10, 0, "cat"⟩] 2]

/-- The open session produced by `C3exOps`, written out. -/
def C3sess : Session :=
  { session_id := toString (0 : ℕ)
    mode := "video"
    model := "m1"
    start_time := 0
    end_time := none
    detections :=
      [⟨0, 1, [⟨(0, 0, 0, 0), 9/10, 0, "cat"⟩, ⟨(0, 0, 0, 0), 8/10, 1, "dog"⟩]⟩,
       ⟨1, 2, [⟨(0, 0, 0, 0), 7/10, 0, "cat"⟩]⟩]
    stats :=
      { total_frames := 2
        total_detections := 3
        unique_classes := insert "cat" (insert "dog" (insert "cat" ∅))
        avg_confidence := 0
        class_counts :=
          Function.update
            (Function.update (Function.update (fun _ => 0) "cat" 1) "dog" 1)
            "cat" 2 } }

/-- A manager with one freshly opened session. -/
def C6m : DetectionManager := runOps [Op.startSession "image" "m1" 0]

/-- A concrete detection used to exercise `add_detection`. -/
def C6det : Detection := ⟨(0, 0, 0, 0), 3/5, 0, "cat"⟩

/-- Three image files, of which the second fails to decode. -/
def C10files : List String := ["a.jpg", "b.jpg", "c.jpg"]

/-- A decoder for which `b.jpg` yields `None` and every other file
decodes. -/
def C10decode : String → Option Frame :=
  fun f => if f = "b.jpg" then none else some 0

/-- A decoder for which every file decodes. -/
def allDecode : String → Option Frame := fun _ => some 0

/-- The walk entries of a directory `d` holding `b.jpg`, `a.jpg`,
`c.jpg`. -/
def C9entries : List (String × String) :=
  [("d", "b.jpg"), ("d", "a.jpg"), ("d", "c.jpg")]

lemma conf_sum_aux (fes : List FrameEntry) :
    (fes.map (fun fe => (fe.detections.map (·.confidence)).sum)).sum
      = ((fes.map (fun fe => fe.detections.map (·.confidence))).flatten).sum := by
  induction fes with
  | nil => simp
  | cons fe rest ih => simp [ih]

lemma conf_length_aux (fes : List FrameEntry) :
    (fes.map (fun fe => fe.detections.length)).sum
      = ((fes.map (fun fe => fe.detections.map (·.confidence))).flatten).length := by
  induction fes with
  | nil => simp
  | cons fe rest ih => simp [ih]

lemma totalConf_eq_sum (s : Session) : totalConf s = (allConfidences s).sum :=
  conf_sum_aux s.detections

lemma totalCount_eq_length (s : Session) :
    totalCount s = (allConfidences s).length :=
  conf_length_aux s.detections

lemma foldl_insert_classes (dets : List Detection) (acc : Finset String) :
    dets.foldl (fun acc d => insert d.class_name acc) acc
      = acc ∪ (dets.map (·.class_name)).toFinset := by
  induction dets generalizing acc with
  | nil => simp
  | cons d rest ih =>
      simp only [List.foldl_cons, ih, List.map_cons, List.toFinset_cons]
      ext c
      simp [Finset.mem_union, Finset.mem_insert]
      try tauto

lemma foldl_update_counts (dets : List Detection) (cc : String → ℕ) (c : String) :
    (dets.foldl
      (fun cc d => Function.update cc d.class_name (cc d.class_name + 1)) cc) c
      = cc c + (dets.map (·.class_name)).count c := by
  induction dets generalizing cc with
  | nil => simp
  | cons d rest ih =>
      simp only [List.foldl_cons, ih, List.map_cons]
      rcases eq_or_ne c d.class_name with h | h
      · subst h
        simp [Function.update_apply, List.count_cons]
        omega
      · simp [Function.update_apply, h, List.count_cons, Ne.symm h]

lemma frameClassNames_append (fes : List FrameEntry) (fe : FrameEntry) :
    frameClassNames (fes ++ [fe])
      = frameClassNames fes ++ fe.detections.map (·.class_name) := by
  simp [frameClassNames]

lemma add_detection_none (m : DetectionManager) (fid : ℕ) (dets : List Detection)
    (now : ℕ) (hc : m.current_session = none) :
    add_detection m fid dets now = m := by
  unfold add_detection
  rw [hc]

lemma add_detection_some (m : DetectionManager) (fid : ℕ) (dets : List Detection)
    (now : ℕ) (s : Session) (hc : m.current_session = some s) :
    add_detection m fid dets now =
      { m with
        current_session := some
          { s with
            detections := s.detections ++ [⟨fid, now, dets⟩]
            stats := updateStats s.stats dets } } := by
  unfold add_detection
  rw [hc]

lemma end_session_none (m : DetectionManager) (now : ℕ)
    (hc : m.current_session = none) : end_session m now = m := by
  unfold end_session
  rw [hc]

lemma end_session_some (m : DetectionManager) (now : ℕ) (s : Session)
    (hc : m.current_session = some s) :
    end_session m now =
      { detection_history := m.detection_history ++ [finalizeSession s now]
        current_session := none } := by
  unfold end_session
  rw [hc]

lemma invariant_init : Invariant DetectionManager.init := by
  constructor
  · rintro s hs
    cases hs
  · intro s hs
    simp [DetectionManager.init] at hs

lemma coreConsistent_update (s : Session) (fid : ℕ) (dets : List Detection)
    (now : ℕ) (h : coreConsistent s) :
    coreConsistent
      { s with detections := s.detections ++ [⟨fid, now, dets⟩],
               stats := updateStats s.stats dets } := by
  obtain ⟨h1, h2, h3, h4⟩ := h
  refine ⟨?_, ?_, ?_, ?_⟩
  · simp [updateStats, h1]
  · simp [updateStats, h2]
  · simp only [updateStats, frameClassNames_append, List.toFinset_append]
    rw [foldl_insert_classes, h3]
  · intro c
    simp only [updateStats, frameClassNames_append, List.count_append]
    rw [foldl_update_counts, h4]

lemma invariant_applyOp (m : DetectionManager) (op : Op)
    (hm : Invariant m) : Invariant (applyOp m op) := by
  obtain ⟨hcur, hhist⟩ := hm
  cases op with
  | startSession mode model now =>
      refine ⟨?_, fun s hs => hhist s hs⟩
      rintro s hs
      simp only [applyOp, start_session, Option.some.injEq] at hs
      subst hs
      exact ⟨⟨rfl, rfl, rfl, fun c => rfl⟩, rfl, rfl⟩
  | addDetection fid dets now =>
      rcases hc : m.current_session with _ | s0
      · rw [show applyOp m (.addDetection fid dets now) = m from
          add_detection_none m fid dets now hc]
        exact ⟨hcur, hhist⟩
      · obtain ⟨hcore, havg, hend⟩ := hcur s0 hc
        rw [show applyOp m (.addDetection fid dets now) = _ from
          add_detection_some m fid dets now s0 hc]
        constructor
        · rintro s' hs'
          have h2 : some
              ({ s0 with
                 detections := s0.detections ++ [⟨fid, now, dets⟩]
                 stats := updateStats s0.stats dets } : Session) = some s' := hs'
          obtain rfl := (Option.some.inj h2).symm
          exact ⟨coreConsistent_update s0 fid dets now hcore,
            by simpa [updateStats] using havg, hend⟩
        · intro s' hs'
          exact hhist s' hs'
  | endSession now =>
      rcases hc : m.current_session with _ | s0
      · rw [show applyOp m (.endSession now) = m from
          end_session_none m now hc]
        exact ⟨hcur, hhist⟩
      · rw [show applyOp m (.endSession now) = _ from
          end_session_some m now s0 hc]
        constructor
        · rintro s' hs'
          exact Option.noConfusion hs'
        · intro s' hs'
          have h2 : s' ∈ m.detection_history ++ [finalizeSession s0 now] := hs'
          rcases List.mem_append.1 h2 with h1 | h1
          · exact hhist s' h1
          · rw [List.mem_singleton] at h1
            subst h1
            simp [finalizeSession]
  | clearHistory =>
      constructor
      · rintro s hs
        exact Option.noConfusion hs
      · intro s hs
        exact absurd (hs : s ∈ ([] : List Session)) (List.not_mem_nil s)

lemma invariant_runOps (ops : List Op) : Invariant (runOps ops) := by
  suffices h : ∀ m, Invariant m → Invariant (ops.foldl applyOp m) by
    exact h DetectionManager.init invariant_init
  induction ops with
  | nil => exact fun m hm => hm
  | cons op rest ih =>
      intro m hm
      exact ih (applyOp m op) (invariant_applyOp m op hm)

/-- C1 (counterexample): the claimed invariant fails on the code.  After
`start_session` and one `add_detection` with a single detection of
confidence 1/2, `get_session_stats` still reports `avg_confidence = 0`
(the code never updates it before `end_session`), while the mean of the
recorded confidences is 1/2, so the open session's stats are not fully
consistent with its frames as claimed. -/
theorem C1_counterexample :
    ¬ claimConsistentOpt (runOps C1exOps).current_session := by
  intro h
  have h2 := (h C1sess rfl).2
  have hmean : meanConfidence C1sess = 1/2 := by
    norm_num [meanConfidence, allConfidences, C1sess]
  have h0 : C1sess.stats.avg_confidence = 0 := rfl
  rw [hmean, h0] at h2
  norm_num at h2

/-- C1 (amended): for every `DetectionManager` state reachable by any
sequence of `start_session`, `add_detection`, `end_session` and
`clear_history` calls, the stats of the open session are consistent with
its recorded frames for `total_frames`, `total_detections`,
`unique_classes` and `class_counts`; `avg_confidence`, however, remains 0
while the session is open (it is only finalized by `end_session`). -/
theorem C1_session_stats_invariant (ops : List Op) (s : Session)
    (h : (runOps ops).current_session = some s) :
    coreConsistent s ∧ s.stats.avg_confidence = 0 := by
  obtain ⟨hcur, _⟩ := invariant_runOps ops
  obtain ⟨h1, h2, _⟩ := hcur s h
  exact ⟨h1, h2⟩

/-- Witness for C1: the invariant instantiated on a freshly opened
session. -/
theorem C1_witness :
    (runOps [Op.startSession "image" "m1" 0]).current_session
        = some (freshSession "image" "m1" 0) ∧
    (coreConsistent (freshSession "image" "m1" 0) ∧
      (freshSession "image" "m1" 0).stats.avg_confidence = 0) :=
  ⟨rfl, C1_session_stats_invariant [Op.startSession "image" "m1" 0]
    (freshSession "image" "m1" 0) rfl⟩

/-- C2 (counterexample): with a session already open, `start_session` does
not fail with `SessionAlreadyOpenError` as claimed — the claim-side
`start_session_claimed` would error here, but the code's `start_session`
completes normally, installs the new session, and leaves the history
unchanged (the previous open session is silently discarded). -/
theorem C2_counterexample :
    (runOps [Op.startSession "image" "m1" 0]).current_session.isSome
        = true ∧
    start_session_claimed (runOps [Op.startSession "image" "m1" 0])
        "video" "m2" 7 = .error .sessionAlreadyOpen ∧
    (start_session (runOps [Op.startSession "image" "m1" 0])
        "video" "m2" 7).current_session = some (freshSession "video" "m2" 7) ∧
    (start_session (runOps [Op.startSession "image" "m1" 0])
        "video" "m2" 7).detection_history = [] :=
  ⟨rfl, rfl, rfl, rfl⟩

/-- C2 (amended): `start_session` never fails: even when a session is
already open it silently replaces it with a fresh session (the previous
open session is discarded without being added to history), and
`detection_history` is untouched. -/
theorem C2_start_session_replaces (m : DetectionManager)
    (mode model : String) (now : ℕ) :
    (start_session m mode model now).current_session
        = some (freshSession mode model now) ∧
    (start_session m mode model now).detection_history
        = m.detection_history :=
  ⟨rfl, rfl⟩

/-- C3: on any reachable state, `end_session` is a no-op when no session
is open; otherwise it stamps the open session's `end_time`, finalizes its
`avg_confidence` as (sum of all recorded confidences) / (detection count)
— 0 when there are no detections — and moves the session into history,
emptying the current session.  When the recorded confidences are 0.9, 0.8
and 0.7 in any distribution over frames, the finalized average is 0.8. -/
theorem C3_end_session (ops : List Op) (now : ℕ) :
    ((runOps ops).current_session = none →
      end_session (runOps ops) now = runOps ops) ∧
    (∀ s, (runOps ops).current_session = some s →
      end_session (runOps ops) now =
        { detection_history :=
            (runOps ops).detection_history ++ [finalizeSession s now]
          current_session := none } ∧
      (finalizeSession s now).end_time = some now ∧
      (finalizeSession s now).stats.avg_confidence =
        (if 0 < totalCount s then totalConf s / (totalCount s : ℚ) else 0) ∧
      ((allConfidences s).Perm [9/10, 8/10, 7/10] →
        (finalizeSession s now).stats.avg_confidence = 4/5)) := by
  constructor
  · intro hc
    exact end_session_none _ now hc
  · intro s hc
    have havg0 : s.stats.avg_confidence = 0 :=
      (C1_session_stats_invariant ops s hc).2
    refine ⟨end_session_some _ now s hc, rfl, ?_, ?_⟩
    · by_cases hpos : 0 < totalCount s
      · simp [finalizeSession, hpos]
      · simp [finalizeSession, hpos, havg0]
    · intro hperm
      have hcount : totalCount s = 3 := by
        rw [totalCount_eq_length, hperm.length_eq]
        rfl
      have hconf : totalConf s = 12/5 := by
        rw [totalConf_eq_sum, hperm.sum_eq]
        norm_num
      simp only [finalizeSession, hcount, hconf]
      norm_num

/-- Witness for C3: a session holding confidences 0.9, 0.8 (first frame)
and 0.7 (second frame) finalizes to average 0.8. -/
theorem C3_witness :
    ((runOps C3exOps).current_session = some C3sess) ∧
    (allConfidences C3sess).Perm [9/10, 8/10, 7/10] ∧
    ((end_session (runOps C3exOps) 5).detection_history.map
        (fun s => s.stats.avg_confidence) = [4/5]) := by
  have he : allConfidences C3sess = [9/10, 8/10, 7/10] := by
    simp [allConfidences, C3sess]
  have hperm : (allConfidences C3sess).Perm [9/10, 8/10, 7/10] :=
    he ▸ List.Perm.refl _
  refine ⟨rfl, hperm, ?_⟩
  have h := (C3_end_session C3exOps 5).2 C3sess rfl
  rw [h.1]
  have hhist : (runOps C3exOps).detection_history = [] := rfl
  rw [hhist]
  have havg := h.2.2.2 hperm
  simp [havg]

/-- C6: `add_detection` is a no-op when no session is open; otherwise it
appends a `(frame_id, timestamp, detections)` entry to the open session's
frames, leaves the history untouched, and updates the stats by
`total_frames += 1`, `total_detections += len(detections)`, adding each
detection's class name to the distinct class set and incrementing its
per-class count by one. -/
theorem C6_add_detection (m : DetectionManager) (fid : ℕ)
    (dets : List Detection) (now : ℕ) :
    (m.current_session = none → add_detection m fid dets now = m) ∧
    (∀ s, m.current_session = some s →
      (add_detection m fid dets now).detection_history
          = m.detection_history ∧
      (add_detection m fid dets now).current_session = some
        { s with
          detections := s.detections ++ [⟨fid, now, dets⟩]
          stats := updateStats s.stats dets } ∧
      (updateStats s.stats dets).total_frames = s.stats.total_frames + 1 ∧
      (updateStats s.stats dets).total_detections
          = s.stats.total_detections + dets.length ∧
      (updateStats s.stats dets).unique_classes
          = s.stats.unique_classes ∪ (dets.map (·.class_name)).toFinset ∧
      (∀ c, (updateStats s.stats dets).class_counts c
          = s.stats.class_counts c + (dets.map (·.class_name)).count c)) := by
  constructor
  · exact add_detection_none m fid dets now
  · intro s hc
    have h := add_detection_some m fid dets now s hc
    refine ⟨by rw [h], by rw [h], rfl, rfl, ?_, ?_⟩
    · exact foldl_insert_classes dets s.stats.unique_classes
    · intro c
      exact foldl_update_counts dets s.stats.class_counts c

/-- Witness for C6: adding one `"cat"` detection to a fresh session grows
the distinct class set accordingly. -/
theorem C6_witness :
    (C6m.current_session = some (freshSession "image" "m1" 0)) ∧
    (updateStats (freshSession "image" "m1" 0).stats [C6det]).unique_classes
        = (freshSession "image" "m1" 0).stats.unique_classes
            ∪ ([C6det].map (·.class_name)).toFinset :=
  ⟨rfl, ((C6_add_detection C6m 0 [C6det] 1).2
      (freshSession "image" "m1" 0) rfl).2.2.2.2.1⟩

/-- C7: `end_session` is idempotent — calling it twice in a row (at any
two instants) leaves exactly the state after the first call: history,
every session's stats, and the current-session field are unchanged, and
no duplicate history entry is created. -/
theorem C7_end_session_idempotent (m : DetectionManager) (n1 n2 : ℕ) :
    end_session (end_session m n1) n2 = end_session m n1 := by
  rcases hc : m.current_session with _ | s
  · rw [end_session_none m n1 hc, end_session_none m n2 hc]
  · rw [end_session_some m n1 s hc]
    exact end_session_none _ n2 rfl

/-- C8: on every reachable state, the history contains only closed
sessions (every entry has `end_time` set), the open session is never an
element of the history, and every operation except `clear_history` only
appends to the history — `clear_history` being the one operation that
removes entries (it empties the history). -/
theorem C8_history_invariant (ops : List Op) :
    (∀ s ∈ (runOps ops).detection_history, s.end_time.isSome) ∧
    (∀ c, (runOps ops).current_session = some c →
      c ∉ (runOps ops).detection_history) ∧
    (∀ op, op ≠ Op.clearHistory →
      ∃ t, (applyOp (runOps ops) op).detection_history
          = (runOps ops).detection_history ++ t) ∧
    (applyOp (runOps ops) Op.clearHistory).detection_history = [] := by
  obtain ⟨hcur, hhist⟩ := invariant_runOps ops
  refine ⟨hhist, ?_, ?_, rfl⟩
  · intro c hc hmem
    obtain ⟨_, _, hend⟩ := hcur c hc
    have hsome := hhist c hmem
    rw [hend] at hsome
    simp at hsome
  · intro op hop
    cases op with
    | startSession mode model now =>
        exact ⟨[], by simp [applyOp, start_session]⟩
    | addDetection fid dets now =>
        rcases hc : (runOps ops).current_session with _ | s
        · exact ⟨[], by
            rw [show applyOp (runOps ops) (.addDetection fid dets now) = _ from
              add_detection_none _ fid dets now hc]
            simp⟩
        · exact ⟨[], by
            rw [show applyOp (runOps ops) (.addDetection fid dets now) = _ from
              add_detection_some _ fid dets now s hc]
            simp⟩
    | endSession now =>
        rcases hc : (runOps ops).current_session with _ | s
        · exact ⟨[], by
            rw [show applyOp (runOps ops) (.endSession now) = _ from
              end_session_none _ now hc]
            simp⟩
        · exact ⟨[finalizeSession s now], by
            rw [show applyOp (runOps ops) (.endSession now) = _ from
              end_session_some _ now s hc]⟩
    | clearHistory => exact absurd rfl hop

/-- Witness for C8: `end_session` on a one-session run only appends to the
history. -/
theorem C8_witness :
    ((Op.endSession 3 : Op) ≠ Op.clearHistory) ∧
    (∃ t, (applyOp (runOps [Op.startSession "image" "m1" 0])
          (Op.endSession 3)).detection_history
        = (runOps [Op.startSession "image" "m1" 0]).detection_history
            ++ t) :=
  ⟨by decide, (C8_history_invariant [Op.startSession "image" "m1" 0]).2.2.1
      (Op.endSession 3) (by decide)⟩

lemma videoEmits_stop (infer : Frame → List Detection) (K : ℕ)
    (running : ℕ → Bool) (hrun : ∀ i, running i = decide (i < K)) :
    ∀ (frames : List Frame) (i : ℕ),
      videoEmits running infer i frames
        = (frames.take (K - i)).map (fun f => (f, infer f)) := by
  intro frames
  induction frames with
  | nil =>
      intro i
      simp [videoEmits]
  | cons f rest ih =>
      intro i
      by_cases hi : i < K
      · simp only [videoEmits, hrun i, decide_eq_true_eq, hi, if_true, ih]
        have hk : K - i = (K - (i + 1)) + 1 := by omega
        rw [hk, List.take_succ_cons, List.map_cons]
      · simp only [videoEmits, hrun i, decide_eq_true_eq, hi, if_false, ih]
        have hk : K - i = 0 := by omega
        rw [hk, List.take_zero, List.map_nil]

/-- C4: if the cooperative stop flag is set after the runner has completed
frame K (so the flag's per-boundary observations read true for the first K
checks and false from the K-th on), then exactly K complete frame results
are published — never K+1 and never a partial K-th result — and the
runner releases the source and, when any frame was processed, the output
writer. -/
theorem C4_cooperative_stop (frames : List Frame)
    (infer : Frame → List Detection) (running : ℕ → Bool) (K : ℕ)
    (hK : K ≤ frames.length) (hrun : ∀ i, running i = decide (i < K)) :
    (process_video running infer frames).emitted
        = (frames.take K).map (fun f => (f, infer f)) ∧
    (process_video running infer frames).emitted.length = K ∧
    (process_video running infer frames).sourceReleased = true ∧
    (0 < K → (process_video running infer frames).writerReleased = true) := by
  have he : (process_video running infer frames).emitted
      = (frames.take K).map (fun f => (f, infer f)) := by
    show videoEmits running infer 0 frames = _
    rw [videoEmits_stop infer K running hrun frames 0, Nat.sub_zero]
  refine ⟨he, ?_, rfl, ?_⟩
  · rw [he]
    simp [List.length_take, hK]
  · intro hKpos
    show (!(videoEmits running infer 0 frames).isEmpty) = true
    have he2 : videoEmits running infer 0 frames
        = (frames.take K).map (fun f => (f, infer f)) := he
    rw [he2]
    rcases hf : frames.take K with _ | ⟨a, l⟩
    · exfalso
      have hlen := congrArg List.length hf
      rw [List.length_take, min_eq_left hK] at hlen
      simp at hlen
      omega
    · simp [List.isEmpty]

/-- Witness for C4: stopping after frame 2 of a 4-frame video publishes
exactly 2 results. -/
theorem C4_witness :
    (2 ≤ ([0, 1, 2, 3] : List Frame).length) ∧
    ((process_video (fun i => decide (i < 2)) (fun _ => [])
        [0, 1, 2, 3]).emitted.length = 2) :=
  ⟨by decide,
    (C4_cooperative_stop [0, 1, 2, 3] (fun _ => []) (fun i => decide (i < 2))
      2 (by decide) (fun i => rfl)).2.1⟩

/-- C5 (counterexample): the single-engine worker's published FPS is not
`1000 / (average inference ms over a 10-frame window)`.  In a run of 10
frames whose inference each takes 10 ms but whose loop iterations each
take 1/50 s = 20 ms of wall-clock time (inference plus drawing, file
write, emit), the worker publishes `10 frames / 0.2 s = 50`, while the
claimed formula yields `1000 / 10 = 100`. -/
theorem C5_counterexample :
    videoFpsEmissions (List.replicate 10 ((1 : ℚ)/50)) = [50] ∧
    (10 : ℚ)/1000 ≤ (1 : ℚ)/50 ∧
    1000 / ((List.replicate 10 ((10 : ℚ))).sum / 10) = 100 ∧
    (50 : ℚ) ≠ 100 := by
  refine ⟨?_, by norm_num, ?_, by norm_num⟩
  · have h : List.replicate 10 ((1 : ℚ)/50)
        = [1/50, 1/50, 1/50, 1/50, 1/50, 1/50, 1/50, 1/50, 1/50, 1/50] := rfl
    rw [h]
    simp only [videoFpsEmissions, yoloFPS]
    norm_num
  · have h : List.replicate 10 ((10 : ℚ))
        = [10, 10, 10, 10, 10, 10, 10, 10, 10, 10] := rfl
    rw [h]
    norm_num

/-- C5 (amended): the dual-model (paired) worker publishes, after every
block of 5 frames, the pair `1000 / (average of that block's per-model
inference times in ms)` — so 5 frames at 10 ms each publish `(100, 100)`;
the single-engine worker instead publishes, after every block of 10
frames, the wall-clock rate `10 / (elapsed seconds for the block)`, which
equals `1000 / average inference ms` only when the loop has no overhead
beyond inference.  The windows are consecutive disjoint blocks (the
counters reset), not a sliding window. -/
theorem C5_fps (ts : List (ℚ × ℚ)) (ws : List ℚ)
    (h5 : ts.length = 5) (h10 : ws.length = 10)
    (ha : 0 < (ts.map Prod.fst).sum) (hb : 0 < (ts.map Prod.snd).sum) :
    comparisonFpsEmissions ts
        = [(1000 / ((ts.map Prod.fst).sum / 5),
            1000 / ((ts.map Prod.snd).sum / 5))] ∧
    videoFpsEmissions ws = [10 / ws.sum] := by
  constructor
  · rcases ts with _ | ⟨⟨a1, b1⟩, _ | ⟨⟨a2, b2⟩, _ | ⟨⟨a3, b3⟩,
      _ | ⟨⟨a4, b4⟩, _ | ⟨⟨a5, b5⟩, rest⟩⟩⟩⟩⟩ <;> simp at h5
    subst h5
    simp only [List.map_cons, List.map_nil, List.sum_cons, List.sum_nil] at ha hb ⊢
    simp only [comparisonFpsEmissions, compFPS]
    norm_num
    rw [if_pos (show (0 : ℚ) < a1 + a2 + a3 + a4 + a5 by linarith),
        if_pos (show (0 : ℚ) < b1 + b2 + b3 + b4 + b5 by linarith)]
    constructor
    · congr 1
      ring
    · congr 1
      ring
  · rcases ws with _ | ⟨w1, _ | ⟨w2, _ | ⟨w3, _ | ⟨w4, _ | ⟨w5,
      _ | ⟨w6, _ | ⟨w7, _ | ⟨w8, _ | ⟨w9, _ | ⟨w10, rest⟩⟩⟩⟩⟩⟩⟩⟩⟩⟩ <;> simp at h10
    subst h10
    simp only [videoFpsEmissions, yoloFPS]
    norm_num
    congr 1
    ring

/-- Witness for C5: 5 frames at 10 ms publish `(100, 100)` on the paired
path, and 10 iterations of 0.1 s wall time publish `10` on the
single-engine path. -/
theorem C5_witness :
    (([((10 : ℚ), (10 : ℚ)), (10, 10), (10, 10), (10, 10), (10, 10)] :
        List (ℚ × ℚ)).length = 5) ∧
    (([(1 : ℚ)/10, 1/10, 1/10, 1/10, 1/10, 1/10, 1/10, 1/10, 1/10, 1/10] :
        List ℚ).length = 10) ∧
    comparisonFpsEmissions
        [((10 : ℚ), (10 : ℚ)), (10, 10), (10, 10), (10, 10), (10, 10)]
        = [(100, 100)] ∧
    videoFpsEmissions
        [(1 : ℚ)/10, 1/10, 1/10, 1/10, 1/10, 1/10, 1/10, 1/10, 1/10, 1/10]
        = [10] := by
  have h := C5_fps
    [((10 : ℚ), (10 : ℚ)), (10, 10), (10, 10), (10, 10), (10, 10)]
    [(1 : ℚ)/10, 1/10, 1/10, 1/10, 1/10, 1/10, 1/10, 1/10, 1/10, 1/10]
    rfl rfl (by norm_num) (by norm_num)
  refine ⟨rfl, rfl, ?_, ?_⟩
  · rw [h.1]
    norm_num
  · rw [h.2]
    norm_num

lemma charListLe_total : ∀ as bs : List Char,
    charListLe as bs = true ∨ charListLe bs as = true := by
  intro as
  induction as with
  | nil =>
      intro bs
      left
      rfl
  | cons a as ih =>
      intro bs
      cases bs with
      | nil =>
          right
          rfl
      | cons b bs =>
          by_cases h1 : a.toNat < b.toNat
          · left
            simp [charListLe, h1]
          · by_cases h2 : b.toNat < a.toNat
            · right
              simp [charListLe, h2]
            · rcases ih bs with h | h
              · left
                simp [charListLe, h1, h2, h]
              · right
                simp [charListLe, h1, h2, h]

lemma charListLe_trans : ∀ as bs cs : List Char,
    charListLe as bs = true → charListLe bs cs = true →
    charListLe as cs = true := by
  intro as
  induction as with
  | nil =>
      intro bs cs _ _
      rfl
  | cons a as ih =>
      intro bs cs hab hbc
      cases bs with
      | nil => simp [charListLe] at hab
      | cons b bs =>
          cases cs with
          | nil => simp [charListLe] at hbc
          | cons c cs =>
              simp only [charListLe] at hab hbc ⊢
              by_cases h1 : a.toNat < b.toNat
              · by_cases h2 : b.toNat < c.toNat
                · simp [show a.toNat < c.toNat by omega]
                · by_cases h3 : c.toNat < b.toNat
                  · rw [if_neg h2, if_pos h3] at hbc
                    exact absurd hbc (by simp)
                  · simp [show a.toNat < c.toNat by omega]
              · by_cases h4 : b.toNat < a.toNat
                · rw [if_neg h1, if_pos h4] at hab
                  exact absurd hab (by simp)
                · rw [if_neg h1, if_neg h4] at hab
                  by_cases h2 : b.toNat < c.toNat
                  · simp [show a.toNat < c.toNat by omega]
                  · by_cases h3 : c.toNat < b.toNat
                    · rw [if_neg h2, if_pos h3] at hbc
                      exact absurd hbc (by simp)
                    · rw [if_neg h2, if_neg h3] at hbc
                      rw [if_neg (show ¬ a.toNat < c.toNat by omega),
                        if_neg (show ¬ c.toNat < a.toNat by omega)]
                      exact ih bs cs hab hbc

lemma pathLe_total (a b : String) : pathLe a b ∨ pathLe b a :=
  charListLe_total a.data b.data

lemma pathLe_trans (a b c : String) :
    pathLe a b → pathLe b c → pathLe a c :=
  charListLe_trans a.data b.data c.data

/-- C9: `get_image_files` returns exactly the image files of the walked
directory, sorted ascending in code-point-lexicographic path order (and
the folder loop then processes the list front to back); in particular a
directory `d` holding `b.jpg`, `a.jpg`, `c.jpg` is processed in the order
`d/a.jpg`, `d/b.jpg`, `d/c.jpg`. -/
theorem C9_folder_order (entries : List (String × String)) :
    List.Sorted pathLe (get_image_files entries) ∧
    (get_image_files entries).Perm
      ((entries.filter (fun e => isImageFile e.2)).map
        (fun e => joinPath e.1 e.2)) ∧
    get_image_files C9entries = ["d/a.jpg", "d/b.jpg", "d/c.jpg"] ∧
    (process_folder allDecode (fun _ => [])
        (get_image_files C9entries)).filterMap itemPath
      = ["d/a.jpg", "d/b.jpg", "d/c.jpg"] := by
  haveI : IsTotal String pathLe := ⟨pathLe_total⟩
  haveI : IsTrans String pathLe := ⟨pathLe_trans⟩
  exact ⟨List.sorted_insertionSort pathLe _,
    List.perm_insertionSort pathLe _, by decide, by decide⟩

lemma folderLoop_progress_length (decode : String → Option Frame)
    (infer : Frame → List Detection) (t : ℕ) :
    ∀ (files : List String) (i : ℕ),
      ((folderLoop decode infer t i files).filter isProgressEv).length
        = files.length := by
  intro files
  induction files with
  | nil =>
      intro i
      rfl
  | cons f rest ih =>
      intro i
      rcases hdf : decode f with _ | fr <;>
        simp [folderLoop, hdf, isProgressEv, ih]

lemma folderLoop_items (decode : String → Option Frame)
    (infer : Frame → List Detection) (t : ℕ) :
    ∀ (files : List String) (i : ℕ),
      (folderLoop decode infer t i files).filterMap itemPath
        = files.filter (fun f => (decode f).isSome) := by
  intro files
  induction files with
  | nil =>
      intro i
      rfl
  | cons f rest ih =>
      intro i
      rcases hdf : decode f with _ | fr <;>
        simp [folderLoop, hdf, itemPath, isProgressEv, ih]

lemma folderLoop_no_error (decode : String → Option Frame)
    (infer : Frame → List Detection) (t : ℕ) :
    ∀ (files : List String) (i : ℕ),
      (folderLoop decode infer t i files).filter isErrorEv = [] := by
  intro files
  induction files with
  | nil =>
      intro i
      rfl
  | cons f rest ih =>
      intro i
      rcases hdf : decode f with _ | fr <;>
        simp [folderLoop, hdf, isErrorEv, isProgressEv, itemPath, ih]

lemma folderLoop_stats_length (decode : String → Option Frame)
    (infer : Frame → List Detection) (t : ℕ) :
    ∀ (files : List String) (i : ℕ),
      ((folderLoop decode infer t i files).filter isStatsEv).length
        = (files.filter (fun f => (decode f).isSome)).length := by
  intro files
  induction files with
  | nil =>
      intro i
      rfl
  | cons f rest ih =>
      intro i
      rcases hdf : decode f with _ | fr <;>
        simp [folderLoop, hdf, isStatsEv, ih]

/-- C10: on a non-empty folder listing, one progress notification is
published per listed file (decodable or not), the per-item result
notifications are exactly the files that decode, in order, statistics are
updated exactly once per file that decodes (so never for a file that
fails to decode), and no error notification is published; with the
concrete three-file folder whose `b.jpg` fails to decode, the number of
per-item results (2) is strictly below the published total count (3). -/
theorem C10_skip_undecodable (decode : String → Option Frame)
    (infer : Frame → List Detection) (files : List String)
    (h : files ≠ []) :
    ((process_folder decode infer files).filter isProgressEv).length
        = files.length ∧
    (process_folder decode infer files).filterMap itemPath
        = files.filter (fun f => (decode f).isSome) ∧
    ((process_folder decode infer files).filter isStatsEv).length
        = (files.filter (fun f => (decode f).isSome)).length ∧
    (process_folder decode infer files).filter isErrorEv = [] ∧
    ((process_folder C10decode (fun _ => []) C10files).filterMap
        itemPath).length < C10files.length := by
  cases files with
  | nil => exact absurd rfl h
  | cons f rest =>
      refine ⟨?_, ?_, ?_, ?_, by decide⟩
      · exact folderLoop_progress_length decode infer _ (f :: rest) 0
      · exact folderLoop_items decode infer _ (f :: rest) 0
      · exact folderLoop_stats_length decode infer _ (f :: rest) 0
      · exact folderLoop_no_error decode infer _ (f :: rest) 0

/-- Witness for C10: the three-file folder with one undecodable file still
gets three progress notifications, but only two stats updates — one per
file that decodes. -/
theorem C10_witness :
    (C10files ≠ []) ∧
    ((process_folder C10decode (fun _ => []) C10files).filter
        isProgressEv).length = C10files.length ∧
    ((process_folder C10decode (fun _ => []) C10files).filter
        isStatsEv).length
      = (C10files.filter (fun f => (C10decode f).isSome)).length :=
  ⟨by decide,
    (C10_skip_undecodable C10decode (fun _ => []) C10files (by decide)).1,
    (C10_skip_undecodable C10decode (fun _ => []) C10files
      (by decide)).2.2.1⟩

end YoloDetectorPro
